import Mathlib

/-!
Formal model of the single-producer/single-consumer shared ring buffer in
src/libsharedringbuffer/include/shared_ringbuffer/shared_ringbuffer.h.

The cursors `write_idx` and `read_idx` are `uint32_t` fields; they are
modelled as naturals kept below 2^32 with explicit modular arithmetic.  The
descriptor array `buffers[CONFIG_LIB_SHARED_RINGBUFFER_DESC_COUNT]` is
modelled as a total function from slot numbers to descriptors (the code only
ever touches slots below the configured count).  The configured slot count
`CONFIG_LIB_SHARED_RINGBUFFER_DESC_COUNT` comes from a generated header
(`shared_ringbuffer/gen_config.h`) that is not part of the sources, so it is
kept as an explicit parameter `N` throughout, constrained only as the spec
constrains it (at least 2, not necessarily a power of two).
-/

/-- Modulus of the 32-bit unsigned cursor arithmetic: 2^32. -/
def U : Nat := 4294967296

/-- `buff_desc_t` (shared_ringbuffer.h lines 20-24): encoded DMA address,
length, and opaque cookie.  All three fields are opaque word-sized values to
the ring, modelled as naturals. -/
structure BuffDesc where
  encoded_addr : Nat
  len : Nat
  cookie : Nat
deriving DecidableEq

instance : Inhabited BuffDesc := ⟨⟨0, 0, 0⟩⟩

/-- `ring_buffer_t` (lines 27-31): the descriptor slots plus the two uint32
cursors. -/
structure RingBuffer where
  buffers : Nat → BuffDesc
  write_idx : Nat
  read_idx : Nat

/-- Severity of the log statement a call executes, from `sel4_zf_logif.h`
(external to this repository).  `ZF_LOGE` logs an error and continues;
`ZF_LOGF` logs at fatal severity, which terminates the calling process. -/
inductive LogAction where
  | silent
  | logError
  | logFatal
deriving DecidableEq

/-- Result of `enqueue`: the C return value, the ring state after the call,
and the log statement the call executed. -/
structure EnqOut where
  ret : Int
  state : RingBuffer
  log : LogAction

/-- Result of `dequeue`: the C return value, the ring state after the call,
the descriptor copied out through the three out-parameters (`none` on
failure), and the log statement the call executed. -/
structure DeqOut where
  ret : Int
  state : RingBuffer
  val : Option BuffDesc
  log : LogAction

/-- `ring_empty` (lines 51-54): `!((write_idx - read_idx) % N)`, with the
subtraction performed in 32-bit unsigned arithmetic. -/
def ring_empty (N : Nat) (ring : RingBuffer) : Bool :=
  (ring.write_idx + U - ring.read_idx) % U % N == 0

/-- `ring_full` (lines 63-66): `!((write_idx - read_idx + 1) % N)`, again in
32-bit unsigned arithmetic. -/
def ring_full (N : Nat) (ring : RingBuffer) : Bool :=
  ((ring.write_idx + U - ring.read_idx) % U + 1) % U % N == 0

/-- `enqueue` (lines 83-98).  On a full ring it logs an error (`ZF_LOGE`) and
returns -1, touching nothing.  Otherwise it stores the three descriptor
fields into slot `write_idx % N` (three separate field stores to one slot,
modelled as one slot update), increments `write_idx` with 32-bit wraparound,
and returns 0.  The `THREAD_MEMORY_RELEASE()` on line 95 has no sequential
effect; its program-order position is modelled separately by
`enqueueEvents`. -/
def enqueue (N : Nat) (ring : RingBuffer) (buffer len cookie : Nat) : EnqOut :=
  if ring_full N ring then
    { ret := -1, state := ring, log := .logError }
  else
    { ret := 0
      state :=
        { buffers := fun j =>
            if j = ring.write_idx % N then ⟨buffer, len, cookie⟩ else ring.buffers j
          write_idx := (ring.write_idx + 1) % U
          read_idx := ring.read_idx }
      log := .silent }

/-- `dequeue` (lines 110-125).  On an empty ring it executes
`ZF_LOGF("Ring is empty")`; fatal-severity logging terminates the process, so
the textual `return -1` on line 114 never reaches the caller — the model
records both the fatal log and the textual return value.  Otherwise it copies
the three fields of slot `read_idx % N` out, increments `read_idx` with
32-bit wraparound, and returns 0. -/
def dequeue (N : Nat) (ring : RingBuffer) : DeqOut :=
  if ring_empty N ring then
    { ret := -1, state := ring, val := none, log := .logFatal }
  else
    { ret := 0
      state := { ring with read_idx := (ring.read_idx + 1) % U }
      val := some (ring.buffers (ring.read_idx % N))
      log := .silent }

/-- Modelled from the spec: `ring_init` is declared on line 41 but its body
is not under src/.  Spec section 3: a Ring is zero-initialized exactly once,
both cursors at 0, and the shared memory region (hence every slot) starts
zeroed. -/
def init : RingBuffer :=
  { buffers := fun _ => default, write_idx := 0, read_idx := 0 }

/-- One call of a single-producer/single-consumer call sequence on one
ring. -/
inductive Op where
  | enq (buffer len cookie : Nat)
  | deq
deriving DecidableEq

/-- A run of a call sequence: the current ring state, the descriptors
successfully enqueued so far (in call order), and the descriptors
successfully dequeued so far (in call order). -/
structure Exec where
  state : RingBuffer
  ins : List BuffDesc
  outs : List BuffDesc

/-- Execute one call, recording the successfully transferred descriptors. -/
def stepE (N : Nat) (e : Exec) (op : Op) : Exec :=
  match op with
  | .enq b l c =>
      let o := enqueue N e.state b l c
      { state := o.state
        ins := if o.ret = 0 then e.ins ++ [⟨b, l, c⟩] else e.ins
        outs := e.outs }
  | .deq =>
      let o := dequeue N e.state
      { state := o.state
        ins := e.ins
        outs :=
          match o.val with
          | some d => e.outs ++ [d]
          | none => e.outs }

/-- Run a call sequence from a zero-initialized ring. -/
def runE (N : Nat) (ops : List Op) : Exec :=
  ops.foldl (stepE N) { state := init, ins := [], outs := [] }

/-- Number of outstanding descriptors encoded by the cursors: the 32-bit
unsigned difference `write_idx - read_idx`. -/
def outstanding (ring : RingBuffer) : Nat :=
  (ring.write_idx + U - ring.read_idx) % U

/-- Cursor and counter invariant of every run: the cursors are 32-bit values,
there are at most as many successful dequeues as successful enqueues, the
cursor difference counts the unmatched successful enqueues, and fewer than
`N` descriptors are outstanding. -/
def Inv0 (N : Nat) (e : Exec) : Prop :=
  e.state.write_idx < U ∧ e.state.read_idx < U ∧
  e.outs.length ≤ e.ins.length ∧
  outstanding e.state = e.ins.length - e.outs.length ∧
  outstanding e.state < N

/-- Queue refinement invariant (usable when `N` divides 2^32): the
successfully dequeued descriptors are a prefix of the successfully enqueued
ones, and the undelivered suffix `q` sits in slots
`read_idx % N, (read_idx + 1) % N, ...` of the descriptor array. -/
def InvF (N : Nat) (e : Exec) : Prop :=
  Inv0 N e ∧ ∃ q, e.ins = e.outs ++ q ∧
    ∀ i, i < q.length →
      e.state.buffers ((e.state.read_idx + i) % N) = q.getD i default

/-- `j` consecutive enqueue calls of the all-zero descriptor. -/
def enqs : Nat → List Op
  | 0 => []
  | j + 1 => enqs j ++ [Op.enq 0 0 0]

/-- `k` balanced enqueue/dequeue pairs: drives both cursors forward by `k`
positions. -/
def churn : Nat → List Op
  | 0 => []
  | k + 1 => churn k ++ [Op.enq 0 0 0, Op.deq]

/-- A call sequence that drives both cursors to 2^32 - 1 and then enqueues
two distinguishable descriptors and dequeues once. -/
def badOps : List Op :=
  churn (U - 1) ++ [Op.enq 1 10 100, Op.enq 2 20 200, Op.deq]

/-- Shared-memory accesses of the successful-enqueue path, one constructor
per statement kind (shared_ringbuffer.h lines 90-95). -/
inductive MemEvent where
  | storeAddr
  | storeLen
  | storeCookie
  | storeWriteIdx
  | releaseBarrier
deriving DecidableEq

/-- Program order of the successful-enqueue path: the three slot-field stores
(lines 90-92), then the `write_idx` increment (line 93), then
`THREAD_MEMORY_RELEASE()` (line 95). -/
def enqueueEvents : List MemEvent :=
  [.storeAddr, .storeLen, .storeCookie, .storeWriteIdx, .releaseBarrier]

/-- C6: enqueue on a non-full ring returns 0, writes the three descriptor
fields into slot `write_idx mod N`, advances `write_idx` by exactly one
(32-bit wraparound), and leaves `read_idx` alone; on a full ring it returns
-1 and changes nothing. -/
theorem C6_enqueue_spec (N : Nat) (r : RingBuffer) (b l c : Nat) :
    (ring_full N r = true → enqueue N r b l c = ⟨-1, r, .logError⟩) ∧
    (ring_full N r = false →
      (enqueue N r b l c).ret = 0 ∧
      (enqueue N r b l c).state.buffers (r.write_idx % N) = ⟨b, l, c⟩ ∧
      (enqueue N r b l c).state.write_idx = (r.write_idx + 1) % U ∧
      (enqueue N r b l c).state.read_idx = r.read_idx) := by
  constructor
  · intro h
    simp [enqueue, h]
  · intro h
    simp [enqueue, h]

/-- Witness for C6 at concrete rings: the full two-slot ring rejects a
descriptor unchanged, and the empty four-slot ring accepts one into
slot 0. -/
theorem C6_enqueue_spec_witness :
    (ring_full 2 (enqueue 2 init 1 1 1).state = true ∧
      enqueue 2 (enqueue 2 init 1 1 1).state 5 5 5 =
        ⟨-1, (enqueue 2 init 1 1 1).state, .logError⟩) ∧
    (ring_full 4 init = false ∧
      (enqueue 4 init 7 8 9).state.buffers (init.write_idx % 4) = ⟨7, 8, 9⟩) := by
  refine ⟨⟨by decide, (C6_enqueue_spec 2 (enqueue 2 init 1 1 1).state 5 5 5).1 (by decide)⟩,
    ⟨by decide, ((C6_enqueue_spec 4 init 7 8 9).2 (by decide)).2.1⟩⟩

/-- C10: a successful enqueue changes no slot other than `write_idx mod N`
and leaves `read_idx` alone; a successful dequeue changes only `read_idx`,
leaving `write_idx` and every slot untouched. -/
theorem C10_frame (N : Nat) (r : RingBuffer) (b l c : Nat) :
    ((enqueue N r b l c).ret = 0 →
      (enqueue N r b l c).state.read_idx = r.read_idx ∧
      ∀ j, j ≠ r.write_idx % N →
        (enqueue N r b l c).state.buffers j = r.buffers j) ∧
    ((dequeue N r).ret = 0 →
      (dequeue N r).state.write_idx = r.write_idx ∧
      ∀ j, (dequeue N r).state.buffers j = r.buffers j) := by
  constructor
  · intro h
    by_cases hf : ring_full N r
    · simp [enqueue, hf] at h
    · refine ⟨by simp [enqueue, hf], fun j hj => ?_⟩
      simp [enqueue, hf, hj]
  · intro h
    by_cases he : ring_empty N r
    · simp [dequeue, he] at h
    · exact ⟨by simp [dequeue, he], fun j => by simp [dequeue, he]⟩

/-- Witness for C10 at a three-slot ring holding one descriptor: a further
enqueue leaves slot 2 alone, and a dequeue leaves `write_idx` alone. -/
theorem C10_frame_witness :
    ((enqueue 3 (enqueue 3 init 1 2 3).state 4 5 6).ret = 0 ∧
      (enqueue 3 (enqueue 3 init 1 2 3).state 4 5 6).state.buffers 2 =
        (enqueue 3 init 1 2 3).state.buffers 2) ∧
    ((dequeue 3 (enqueue 3 init 1 2 3).state).ret = 0 ∧
      (dequeue 3 (enqueue 3 init 1 2 3).state).state.write_idx =
        (enqueue 3 init 1 2 3).state.write_idx) := by
  refine ⟨⟨by decide, ?_⟩, ⟨by decide, ?_⟩⟩
  · exact ((C10_frame 3 (enqueue 3 init 1 2 3).state 4 5 6).1 (by decide)).2 2 (by decide)
  · exact ((C10_frame 3 (enqueue 3 init 1 2 3).state 0 0 0).2 (by decide)).1

/-- C4: evaluation at the failing input.  Dequeue on the zero-initialized
(empty) ring reaches the `ZF_LOGF` statement, which logs at fatal severity
and terminates the calling process, so the textual -1 return never reaches
the caller; enqueue on a full ring does return -1 after a mere
error-severity log.  This refutes the part of the claim saying neither call
aborts the caller's control flow. -/
theorem C4_eval :
    (dequeue 4 init).ret = -1 ∧ (dequeue 4 init).log = LogAction.logFatal ∧
    (enqueue 2 (enqueue 2 init 1 1 1).state 2 2 2).ret = -1 ∧
    (enqueue 2 (enqueue 2 init 1 1 1).state 2 2 2).log = LogAction.logError := by
  exact ⟨by decide, by decide, by decide, by decide⟩

/-- C8: evaluation at the failing input.  The failure branches do leave the
cursors and every slot untouched (no partial state), but dequeue on the
freshly initialized empty ring takes the fatal-log path (process
termination) rather than returning the Empty failure as an ordinary result;
enqueue on a full three-slot ring returns -1 fully unchanged, as claimed. -/
theorem C8_eval :
    (dequeue 3 init).state = init ∧
    (dequeue 3 init).log = LogAction.logFatal ∧
    (enqueue 3 (enqueue 3 (enqueue 3 init 1 1 1).state 2 2 2).state 9 9 9).ret = -1 ∧
    (enqueue 3 (enqueue 3 (enqueue 3 init 1 1 1).state 2 2 2).state 9 9 9).state =
      (enqueue 3 (enqueue 3 init 1 1 1).state 2 2 2).state := by
  exact ⟨rfl, rfl, by decide, rfl⟩

/-- C7: in the successful-enqueue path the `write_idx` increment (line 93)
precedes `THREAD_MEMORY_RELEASE()` (line 95) in program order, so the release
barrier does not separate the slot stores from the publication of the new
index; the claim (and spec section 4.1) requires the barrier to come after
the slot stores and before the index increment. -/
theorem C7_eval :
    enqueueEvents.findIdx (fun e => e == MemEvent.storeWriteIdx) <
      enqueueEvents.findIdx (fun e => e == MemEvent.releaseBarrier) := by
  decide

theorem U_val : U = 4294967296 := rfl

theorem U_pos : 0 < U := by decide

theorem enqueue_success (N : Nat) (r : RingBuffer) (b l c : Nat)
    (hf : ring_full N r = false) :
    enqueue N r b l c =
      ⟨0, ⟨fun j => if j = r.write_idx % N then ⟨b, l, c⟩ else r.buffers j,
        (r.write_idx + 1) % U, r.read_idx⟩, .silent⟩ := by
  simp [enqueue, hf]

theorem dequeue_success (N : Nat) (r : RingBuffer) (he : ring_empty N r = false) :
    dequeue N r =
      ⟨0, ⟨r.buffers, r.write_idx, (r.read_idx + 1) % U⟩,
        some (r.buffers (r.read_idx % N)), .silent⟩ := by
  simp [dequeue, he]

theorem stepE_enq_full (N : Nat) (e : Exec) (b l c : Nat)
    (hf : ring_full N e.state = true) : stepE N e (Op.enq b l c) = e := by
  simp [stepE, enqueue, hf]

theorem stepE_enq_ok (N : Nat) (e : Exec) (b l c : Nat)
    (hf : ring_full N e.state = false) :
    stepE N e (Op.enq b l c) =
      ⟨⟨fun j => if j = e.state.write_idx % N then ⟨b, l, c⟩ else e.state.buffers j,
        (e.state.write_idx + 1) % U, e.state.read_idx⟩,
       e.ins ++ [⟨b, l, c⟩], e.outs⟩ := by
  simp [stepE, enqueue, hf]

theorem stepE_deq_empty (N : Nat) (e : Exec)
    (he : ring_empty N e.state = true) : stepE N e Op.deq = e := by
  simp [stepE, dequeue, he]

theorem stepE_deq_ok (N : Nat) (e : Exec)
    (he : ring_empty N e.state = false) :
    stepE N e Op.deq =
      ⟨⟨e.state.buffers, e.state.write_idx, (e.state.read_idx + 1) % U⟩,
       e.ins, e.outs ++ [e.state.buffers (e.state.read_idx % N)]⟩ := by
  simp [stepE, dequeue, he]

theorem empty_iff (N : Nat) (r : RingBuffer) (hc : outstanding r < N) :
    ring_empty N r = true ↔ outstanding r = 0 := by
  show (outstanding r % N == 0) = true ↔ outstanding r = 0
  rw [Nat.mod_eq_of_lt hc, beq_iff_eq]

theorem full_iff (N : Nat) (r : RingBuffer) (hNU : N ≤ U) (hc : outstanding r < N) :
    ring_full N r = true ↔ outstanding r = N - 1 := by
  show ((outstanding r + 1) % U % N == 0) = true ↔ outstanding r = N - 1
  rw [beq_iff_eq]
  rcases Nat.lt_or_ge (outstanding r + 1) U with hlt | hge
  · rw [Nat.mod_eq_of_lt hlt]
    constructor
    · intro h0
      have hd : N ∣ outstanding r + 1 := Nat.dvd_of_mod_eq_zero h0
      have hle : N ≤ outstanding r + 1 := Nat.le_of_dvd (Nat.succ_pos _) hd
      omega
    · intro h
      have hN : outstanding r + 1 = N := by omega
      rw [hN, Nat.mod_self]
  · have heq : outstanding r + 1 = U := by omega
    rw [heq, Nat.mod_self, Nat.zero_mod]
    omega

theorem outstanding_succ (w r c : Nat) (hw : w < U) (hr : r < U)
    (hc : (w + U - r) % U = c) (hcu : c + 1 < U) :
    ((w + 1) % U + U - r) % U = c + 1 := by
  rw [U_val] at *
  omega

theorem outstanding_pred (w r c : Nat) (hw : w < U) (hr : r < U)
    (hc : (w + U - r) % U = c) (h1 : 1 ≤ c) :
    (w + U - (r + 1) % U) % U = c - 1 := by
  rw [U_val] at *
  omega

theorem stepE_inv0 (N : Nat) (hNU : N ≤ U) (e : Exec) (op : Op)
    (h : Inv0 N e) : Inv0 N (stepE N e op) := by
  obtain ⟨hw, hr, hlen, hc, hcN⟩ := h
  cases op with
  | enq b l c =>
    by_cases hf : ring_full N e.state = true
    · rw [stepE_enq_full N e b l c hf]
      exact ⟨hw, hr, hlen, hc, hcN⟩
    · have hf' : ring_full N e.state = false := by simpa using hf
      rw [stepE_enq_ok N e b l c hf']
      have hne : outstanding e.state ≠ N - 1 := by
        intro hh
        rw [(full_iff N e.state hNU hcN).mpr hh] at hf'
        cases hf'
      have hlt : outstanding e.state + 1 < N := by omega
      have hsucc : ((e.state.write_idx + 1) % U + U - e.state.read_idx) % U
          = outstanding e.state + 1 :=
        outstanding_succ _ _ _ hw hr rfl (by omega)
      refine ⟨Nat.mod_lt _ U_pos, hr, ?_, ?_, ?_⟩
      · simp only [List.length_append, List.length_cons, List.length_nil]
        omega
      · show ((e.state.write_idx + 1) % U + U - e.state.read_idx) % U = _
        rw [hsucc]
        simp only [List.length_append, List.length_cons, List.length_nil]
        omega
      · show ((e.state.write_idx + 1) % U + U - e.state.read_idx) % U < N
        rw [hsucc]
        exact hlt
  | deq =>
    by_cases he : ring_empty N e.state = true
    · rw [stepE_deq_empty N e he]
      exact ⟨hw, hr, hlen, hc, hcN⟩
    · have he' : ring_empty N e.state = false := by simpa using he
      rw [stepE_deq_ok N e he']
      have hne : outstanding e.state ≠ 0 := by
        intro hh
        rw [(empty_iff N e.state hcN).mpr hh] at he'
        cases he'
      have hpred : (e.state.write_idx + U - (e.state.read_idx + 1) % U) % U
          = outstanding e.state - 1 :=
        outstanding_pred _ _ _ hw hr rfl (by omega)
      refine ⟨hw, Nat.mod_lt _ U_pos, ?_, ?_, ?_⟩
      · simp only [List.length_append, List.length_cons, List.length_nil]
        omega
      · show (e.state.write_idx + U - (e.state.read_idx + 1) % U) % U = _
        rw [hpred]
        simp only [List.length_append, List.length_cons, List.length_nil]
        omega
      · show (e.state.write_idx + U - (e.state.read_idx + 1) % U) % U < N
        rw [hpred]
        omega

theorem foldl_inv0 (N : Nat) (hNU : N ≤ U) :
    ∀ (ops : List Op) (e : Exec), Inv0 N e → Inv0 N (ops.foldl (stepE N) e)
  | [], _, h => h
  | op :: rest, e, h =>
      foldl_inv0 N hNU rest (stepE N e op) (stepE_inv0 N hNU e op h)

theorem init_inv0 (N : Nat) (hN : 1 ≤ N) : Inv0 N ⟨init, [], []⟩ := by
  have h0 : outstanding init = 0 := by decide
  exact ⟨by decide, by decide, Nat.le_refl 0, by simp [h0], by rw [h0]; omega⟩

theorem runE_inv0 (N : Nat) (ops : List Op) (h2 : 2 ≤ N) (hNU : N ≤ U) :
    Inv0 N (runE N ops) :=
  foldl_inv0 N hNU ops ⟨init, [], []⟩ (init_inv0 N (by omega))

/-- C2: over every call sequence from the zero-initialized ring, ring_empty
holds iff no successful enqueue is unmatched by a successful dequeue, and
ring_full holds iff exactly N - 1 successful enqueues are unmatched. -/
theorem C2_empty_full (N : Nat) (ops : List Op) (h2 : 2 ≤ N) (hNU : N ≤ U) :
    (ring_empty N (runE N ops).state = true ↔
      (runE N ops).ins.length - (runE N ops).outs.length = 0) ∧
    (ring_full N (runE N ops).state = true ↔
      (runE N ops).ins.length - (runE N ops).outs.length = N - 1) := by
  obtain ⟨hw, hr, hlen, hc, hcN⟩ := runE_inv0 N ops h2 hNU
  rw [← hc]
  exact ⟨empty_iff N _ hcN, full_iff N _ hNU hcN⟩

/-- Witness for C2: the four-slot ring with three unmatched enqueues is
full. -/
theorem C2_empty_full_witness :
    (2 ≤ 4 ∧ 4 ≤ U) ∧
      (ring_full 4 (runE 4 [Op.enq 1 2 3, Op.enq 4 5 6, Op.enq 7 8 9]).state = true ↔
        (runE 4 [Op.enq 1 2 3, Op.enq 4 5 6, Op.enq 7 8 9]).ins.length -
          (runE 4 [Op.enq 1 2 3, Op.enq 4 5 6, Op.enq 7 8 9]).outs.length = 4 - 1) :=
  ⟨⟨by decide, by decide⟩,
    (C2_empty_full 4 [Op.enq 1 2 3, Op.enq 4 5 6, Op.enq 7 8 9]
      (by decide) (by decide)).2⟩

/-- C9: on no reachable state of a ring with slot count N ≥ 2 are ring_empty
and ring_full simultaneously true. -/
theorem C9_not_both (N : Nat) (ops : List Op) (h2 : 2 ≤ N) (hNU : N ≤ U) :
    ¬(ring_empty N (runE N ops).state = true ∧
      ring_full N (runE N ops).state = true) := by
  obtain ⟨hw, hr, hlen, hc, hcN⟩ := runE_inv0 N ops h2 hNU
  rintro ⟨he, hf⟩
  have h0 := (empty_iff N _ hcN).mp he
  have h1 := (full_iff N _ hNU hcN).mp hf
  omega

/-- Witness for C9 at the freshly initialized two-slot ring. -/
theorem C9_not_both_witness :
    (2 ≤ 2 ∧ 2 ≤ U) ∧
      ¬(ring_empty 2 (runE 2 []).state = true ∧
        ring_full 2 (runE 2 []).state = true) :=
  ⟨⟨by decide, by decide⟩, C9_not_both 2 [] (by decide) (by decide)⟩

/-- C5: for every slot count 2 ≤ N ≤ 2^32 (not necessarily a power of two)
and every cursor configuration reachable by driving the 32-bit cursors any
distance — including past the 2^32 wraparound boundary, i.e. any cursor
values below 2^32 whose unsigned difference is below N — ring_empty and
ring_full report exactly the true empty (0 outstanding) and full (N - 1
outstanding) states of the ring. -/
theorem C5_wraparound (N w r : Nat) (bufs : Nat → BuffDesc)
    (h2 : 2 ≤ N) (hNU : N ≤ U) (hw : w < U) (hr : r < U)
    (hc : (w + U - r) % U < N) :
    (ring_empty N ⟨bufs, w, r⟩ = true ↔ (w + U - r) % U = 0) ∧
    (ring_full N ⟨bufs, w, r⟩ = true ↔ (w + U - r) % U = N - 1) :=
  ⟨empty_iff N ⟨bufs, w, r⟩ hc, full_iff N ⟨bufs, w, r⟩ hNU hc⟩

/-- Witness for C5 at cursors that have wrapped past 2^32 on a six-slot ring
(a slot count that is not a power of two): write cursor already wrapped to 3,
read cursor still at 2^32 - 2, five descriptors outstanding, and the ring
correctly reports full. -/
theorem C5_wraparound_witness :
    (2 ≤ 6 ∧ 6 ≤ U ∧ 3 < U ∧ U - 2 < U ∧ (3 + U - (U - 2)) % U < 6) ∧
      ring_full 6 ⟨fun _ => default, 3, U - 2⟩ = true :=
  ⟨⟨by decide, by decide, by decide, by decide, by decide⟩,
    ((C5_wraparound 6 3 (U - 2) (fun _ => default) (by decide) (by decide)
      (by decide) (by decide) (by decide)).2).mpr (by decide)⟩

theorem enqueue_ret_full (N : Nat) (r : RingBuffer) (b l c : Nat)
    (hf : ring_full N r = true) : (enqueue N r b l c).ret = -1 := by
  simp [enqueue, hf]

theorem enqueue_ret_ok (N : Nat) (r : RingBuffer) (b l c : Nat)
    (hf : ring_full N r = false) : (enqueue N r b l c).ret = 0 := by
  simp [enqueue, hf]

theorem dequeue_ret_ok (N : Nat) (r : RingBuffer)
    (he : ring_empty N r = false) : (dequeue N r).ret = 0 := by
  simp [dequeue, he]

theorem dequeue_state_ok (N : Nat) (r : RingBuffer)
    (he : ring_empty N r = false) :
    (dequeue N r).state.buffers = r.buffers ∧
    (dequeue N r).state.write_idx = r.write_idx ∧
    (dequeue N r).state.read_idx = (r.read_idx + 1) % U := by
  simp [dequeue, he]

theorem enqueue_state_ok (N : Nat) (r : RingBuffer) (b l c : Nat)
    (hf : ring_full N r = false) :
    (enqueue N r b l c).state.write_idx = (r.write_idx + 1) % U ∧
    (enqueue N r b l c).state.read_idx = r.read_idx := by
  simp [enqueue, hf]

theorem ring_full_false_of_ne (N : Nat) (r : RingBuffer) (hNU : N ≤ U)
    (hcN : outstanding r < N) (hne : outstanding r ≠ N - 1) :
    ring_full N r = false := by
  rcases Bool.eq_false_or_eq_true (ring_full N r) with h | h
  · exact absurd ((full_iff N r hNU hcN).mp h) hne
  · exact h

theorem ring_empty_false_of_ne (N : Nat) (r : RingBuffer)
    (hcN : outstanding r < N) (hne : outstanding r ≠ 0) :
    ring_empty N r = false := by
  rcases Bool.eq_false_or_eq_true (ring_empty N r) with h | h
  · exact absurd ((empty_iff N r hcN).mp h) hne
  · exact h

theorem ring_full_true_of_eq (N : Nat) (r : RingBuffer) (hNU : N ≤ U)
    (hcN : outstanding r < N) (heq : outstanding r = N - 1) :
    ring_full N r = true := (full_iff N r hNU hcN).mpr heq

theorem enqs_succ (j : Nat) : enqs (j + 1) = enqs j ++ [Op.enq 0 0 0] := rfl

theorem runE_append (N : Nat) (l1 l2 : List Op) :
    runE N (l1 ++ l2) = l2.foldl (stepE N) (runE N l1) := by
  simp [runE, List.foldl_append]

theorem runE_enqs_state (N : Nat) (h2 : 2 ≤ N) (hNU : N ≤ U) :
    ∀ j, j ≤ N - 1 →
      (runE N (enqs j)).state.write_idx = j ∧
      (runE N (enqs j)).state.read_idx = 0 := by
  intro j
  induction j with
  | zero => exact fun _ => ⟨rfl, rfl⟩
  | succ j ih =>
    intro hj
    obtain ⟨hw, hr⟩ := ih (by omega)
    have hNU' : N ≤ 4294967296 := by rw [← U_val]; exact hNU
    have hout : outstanding (runE N (enqs j)).state = j := by
      unfold outstanding
      rw [hw, hr, U_val]
      omega
    have hf : ring_full N (runE N (enqs j)).state = false :=
      ring_full_false_of_ne N _ hNU (by omega) (by omega)
    have hsingle : runE N (enqs (j + 1)) = stepE N (runE N (enqs j)) (Op.enq 0 0 0) := by
      rw [enqs_succ, runE_append]
      rfl
    rw [hsingle]
    constructor
    · rw [stepE_enq_ok N _ 0 0 0 hf]
      show ((runE N (enqs j)).state.write_idx + 1) % U = j + 1
      rw [hw, U_val]
      omega
    · rw [stepE_enq_ok N _ 0 0 0 hf]
      exact hr

/-- C3: from the empty zero-initialized ring with slot count N, the first
N - 1 consecutive enqueues all succeed (return 0), the N-th fails with the
Full error (-1), then one dequeue succeeds, and after it exactly one further
enqueue succeeds: the one after that fails again. -/
theorem C3_capacity (N : Nat) (h2 : 2 ≤ N) (hNU : N ≤ U) :
    (∀ j, j < N - 1 → (enqueue N (runE N (enqs j)).state 0 0 0).ret = 0) ∧
    (enqueue N (runE N (enqs (N - 1))).state 0 0 0).ret = -1 ∧
    (dequeue N (runE N (enqs (N - 1))).state).ret = 0 ∧
    (enqueue N (dequeue N (runE N (enqs (N - 1))).state).state 0 0 0).ret = 0 ∧
    (enqueue N (enqueue N (dequeue N (runE N (enqs (N - 1))).state).state 0 0 0).state
        0 0 0).ret = -1 := by
  have hNU' : N ≤ 4294967296 := by rw [← U_val]; exact hNU
  obtain ⟨hwF, hrF⟩ := runE_enqs_state N h2 hNU (N - 1) (Nat.le_refl _)
  have houtF : outstanding (runE N (enqs (N - 1))).state = N - 1 := by
    unfold outstanding
    rw [hwF, hrF, U_val]
    omega
  have hfF : ring_full N (runE N (enqs (N - 1))).state = true :=
    ring_full_true_of_eq N _ hNU (by omega) houtF
  have heF : ring_empty N (runE N (enqs (N - 1))).state = false :=
    ring_empty_false_of_ne N _ (by omega) (by omega)
  obtain ⟨hdb, hdw, hdr⟩ := dequeue_state_ok N _ heF
  have hout1 : outstanding (dequeue N (runE N (enqs (N - 1))).state).state = N - 2 := by
    unfold outstanding
    rw [hdw, hdr, hwF, hrF, U_val]
    omega
  have hf1 : ring_full N (dequeue N (runE N (enqs (N - 1))).state).state = false :=
    ring_full_false_of_ne N _ hNU (by omega) (by omega)
  obtain ⟨hew, her⟩ := enqueue_state_ok N _ 0 0 0 hf1
  have hout2 : outstanding
      (enqueue N (dequeue N (runE N (enqs (N - 1))).state).state 0 0 0).state = N - 1 := by
    unfold outstanding
    rw [hew, her, hdw, hdr, hwF, hrF, U_val]
    omega
  have hf2 : ring_full N
      (enqueue N (dequeue N (runE N (enqs (N - 1))).state).state 0 0 0).state = true :=
    ring_full_true_of_eq N _ hNU (by omega) hout2
  refine ⟨?_, enqueue_ret_full N _ 0 0 0 hfF, dequeue_ret_ok N _ heF,
    enqueue_ret_ok N _ 0 0 0 hf1, enqueue_ret_full N _ 0 0 0 hf2⟩
  intro j hj
  obtain ⟨hw, hr⟩ := runE_enqs_state N h2 hNU j (by omega)
  have hout : outstanding (runE N (enqs j)).state = j := by
    unfold outstanding
    rw [hw, hr, U_val]
    omega
  exact enqueue_ret_ok N _ 0 0 0 (ring_full_false_of_ne N _ hNU (by omega) (by omega))

/-- Witness for C3 on the four-slot ring: the third enqueue from empty
succeeds, the fourth fails, and after a dequeue one more succeeds. -/
theorem C3_capacity_witness :
    (2 ≤ 4 ∧ 4 ≤ U) ∧
      (enqueue 4 (runE 4 (enqs 2)).state 0 0 0).ret = 0 ∧
      (enqueue 4 (runE 4 (enqs (4 - 1))).state 0 0 0).ret = -1 ∧
      (enqueue 4 (dequeue 4 (runE 4 (enqs (4 - 1))).state).state 0 0 0).ret = 0 :=
  ⟨⟨by decide, by decide⟩,
    (C3_capacity 4 (by decide) (by decide)).1 2 (by decide),
    (C3_capacity 4 (by decide) (by decide)).2.1,
    (C3_capacity 4 (by decide) (by decide)).2.2.2.1⟩

theorem mod_U_mod (N x : Nat) (hdvd : U % N = 0) : x % U % N = x % N :=
  Nat.mod_mod_of_dvd x (Nat.dvd_of_mod_eq_zero hdvd)

theorem slot_inj (N i c r : Nat) (hiN : i < N) (hcN : c < N) (hne : i ≠ c) :
    (r + i) % N ≠ (r + c) % N := by
  intro h
  have h1 : i ≡ c [MOD N] := Nat.ModEq.add_left_cancel' r h
  have h2 : i % N = c % N := h1
  rw [Nat.mod_eq_of_lt hiN, Nat.mod_eq_of_lt hcN] at h2
  exact hne h2

theorem write_eq_read_add (w r c : Nat) (hw : w < U) (hr : r < U)
    (hc : (w + U - r) % U = c) : w = (r + c) % U := by
  rw [U_val] at *
  omega

theorem stepE_invF (N : Nat) (h2 : 2 ≤ N) (hdvd : U % N = 0) (e : Exec) (op : Op)
    (h : InvF N e) : InvF N (stepE N e op) := by
  have hNU : N ≤ U := Nat.le_of_dvd U_pos (Nat.dvd_of_mod_eq_zero hdvd)
  obtain ⟨h0, q, hq, hbuf⟩ := h
  have hInv0 : Inv0 N (stepE N e op) := stepE_inv0 N hNU e op h0
  obtain ⟨hw, hr, hlen, hc, hcN⟩ := h0
  have hqlen : q.length = outstanding e.state := by
    rw [hc, hq, List.length_append]
    omega
  refine ⟨hInv0, ?_⟩
  cases op with
  | enq b l c =>
    by_cases hf : ring_full N e.state = true
    · rw [stepE_enq_full N e b l c hf]
      exact ⟨q, hq, hbuf⟩
    · have hf' : ring_full N e.state = false := by simpa using hf
      rw [stepE_enq_ok N e b l c hf']
      refine ⟨q ++ [⟨b, l, c⟩], ?_, ?_⟩
      · show e.ins ++ [⟨b, l, c⟩] = e.outs ++ (q ++ [⟨b, l, c⟩])
        rw [hq, List.append_assoc]
      · have hne1 : outstanding e.state ≠ N - 1 := by
          intro hh
          rw [(full_iff N e.state hNU hcN).mpr hh] at hf'
          cases hf'
        have hwslot : e.state.write_idx % N
            = (e.state.read_idx + outstanding e.state) % N := by
          rw [write_eq_read_add e.state.write_idx e.state.read_idx
            (outstanding e.state) hw hr rfl]
          exact mod_U_mod N _ hdvd
        intro i hi
        have hi' : i < q.length + 1 := by simpa using hi
        show (if (e.state.read_idx + i) % N = e.state.write_idx % N
            then (⟨b, l, c⟩ : BuffDesc)
            else e.state.buffers ((e.state.read_idx + i) % N))
          = (q ++ [(⟨b, l, c⟩ : BuffDesc)]).getD i default
        rcases Nat.lt_or_ge i q.length with hilt | hige
        · have hiN : i < N := by omega
          have hneq : (e.state.read_idx + i) % N ≠ e.state.write_idx % N := by
            rw [hwslot]
            exact slot_inj N i (outstanding e.state) e.state.read_idx hiN hcN
              (by omega)
          rw [if_neg hneq, List.getD_append _ _ _ _ hilt]
          exact hbuf i hilt
        · have hieq : i = q.length := by omega
          have heq2 : (e.state.read_idx + i) % N = e.state.write_idx % N := by
            rw [hwslot, hieq, hqlen]
          rw [if_pos heq2, hieq, List.getD_append_right _ _ _ _ (Nat.le_refl _),
            Nat.sub_self]
          rfl
  | deq =>
    by_cases he : ring_empty N e.state = true
    · rw [stepE_deq_empty N e he]
      exact ⟨q, hq, hbuf⟩
    · have he' : ring_empty N e.state = false := by simpa using he
      have hne0 : outstanding e.state ≠ 0 := by
        intro hh
        rw [(empty_iff N e.state hcN).mpr hh] at he'
        cases he'
      have hql : 0 < q.length := by omega
      rw [stepE_deq_ok N e he']
      cases q with
      | nil => simp at hql
      | cons qh qt =>
        have hhead : e.state.buffers (e.state.read_idx % N) = qh := by
          have h00 := hbuf 0 (by simp)
          simpa using h00
        refine ⟨qt, ?_, ?_⟩
        · show e.ins = (e.outs ++ [e.state.buffers (e.state.read_idx % N)]) ++ qt
          rw [hq, hhead, List.append_assoc]
          rfl
        · intro i hi
          show e.state.buffers (((e.state.read_idx + 1) % U + i) % N)
            = qt.getD i default
          have hmod : ((e.state.read_idx + 1) % U + i) % N
              = (e.state.read_idx + (i + 1)) % N := by
            rw [Nat.add_mod ((e.state.read_idx + 1) % U) i N, mod_U_mod N _ hdvd,
              ← Nat.add_mod]
            congr 1
            omega
          rw [hmod]
          have hnext := hbuf (i + 1) (by simpa using Nat.succ_lt_succ hi)
          simpa using hnext

theorem foldl_invF (N : Nat) (h2 : 2 ≤ N) (hdvd : U % N = 0) :
    ∀ (ops : List Op) (e : Exec), InvF N e → InvF N (ops.foldl (stepE N) e)
  | [], _, h => h
  | op :: rest, e, h =>
      foldl_invF N h2 hdvd rest (stepE N e op) (stepE_invF N h2 hdvd e op h)

theorem init_invF (N : Nat) (h2 : 2 ≤ N) : InvF N ⟨init, [], []⟩ :=
  ⟨init_inv0 N (by omega), [], rfl, fun _ hi => by simp at hi⟩

/-- C1 (amended): when the slot count divides 2^32 — in particular for any
power-of-two slot count — the descriptors returned by successful dequeues are
exactly a prefix of the descriptors accepted by successful enqueues: every
descriptor is returned unchanged, field for field, by the matching dequeue,
in strict FIFO order. -/
theorem C1_fifo_dvd (N : Nat) (ops : List Op) (h2 : 2 ≤ N) (hdvd : U % N = 0) :
    ∃ t, (runE N ops).ins = (runE N ops).outs ++ t := by
  obtain ⟨-, q, hq, -⟩ := foldl_invF N h2 hdvd ops ⟨init, [], []⟩ (init_invF N h2)
  exact ⟨q, hq⟩

/-- Witness for C1 (amended) on the four-slot ring with a concrete
enqueue/dequeue interleaving. -/
theorem C1_fifo_dvd_witness :
    (2 ≤ 4 ∧ U % 4 = 0) ∧
      ∃ t, (runE 4 [Op.enq 1 2 3, Op.enq 4 5 6, Op.deq, Op.enq 7 8 9, Op.deq]).ins =
        (runE 4 [Op.enq 1 2 3, Op.enq 4 5 6, Op.deq, Op.enq 7 8 9, Op.deq]).outs ++ t :=
  ⟨⟨by decide, by decide⟩,
    C1_fifo_dvd 4 [Op.enq 1 2 3, Op.enq 4 5 6, Op.deq, Op.enq 7 8 9, Op.deq]
      (by decide) (by decide)⟩

theorem churn_succ (k : Nat) :
    churn (k + 1) = churn k ++ [Op.enq 0 0 0, Op.deq] := rfl

theorem runE_churn (k : Nat) :
    (runE 3 (churn k)).state.buffers = (fun _ => default) ∧
    (runE 3 (churn k)).state.write_idx = k % U ∧
    (runE 3 (churn k)).state.read_idx = k % U ∧
    (runE 3 (churn k)).ins = List.replicate k default ∧
    (runE 3 (churn k)).outs = List.replicate k default := by
  induction k with
  | zero => exact ⟨rfl, rfl, rfl, rfl, rfl⟩
  | succ k ih =>
    obtain ⟨hb, hw, hr, hins, houts⟩ := ih
    have hout0 : outstanding (runE 3 (churn k)).state = 0 := by
      unfold outstanding
      rw [hw, hr, U_val]
      omega
    have hf : ring_full 3 (runE 3 (churn k)).state = false :=
      ring_full_false_of_ne 3 _ (by decide) (by omega) (by omega)
    set e1 := stepE 3 (runE 3 (churn k)) (Op.enq 0 0 0) with he1
    have hsplit : runE 3 (churn (k + 1)) = stepE 3 e1 Op.deq := by
      rw [he1, churn_succ, runE_append]
      rfl
    have hb1 : e1.state.buffers = (fun _ => default) := by
      rw [he1, stepE_enq_ok 3 _ 0 0 0 hf]
      funext j
      show (if j = (runE 3 (churn k)).state.write_idx % 3 then (⟨0, 0, 0⟩ : BuffDesc)
          else (runE 3 (churn k)).state.buffers j) = default
      split
      · rfl
      · rw [hb]
    have hw1 : e1.state.write_idx = (k + 1) % U := by
      rw [he1, stepE_enq_ok 3 _ 0 0 0 hf]
      show ((runE 3 (churn k)).state.write_idx + 1) % U = (k + 1) % U
      rw [hw, U_val]
      omega
    have hr1 : e1.state.read_idx = k % U := by
      rw [he1, stepE_enq_ok 3 _ 0 0 0 hf]
      exact hr
    have hins1 : e1.ins = List.replicate (k + 1) default := by
      rw [he1, stepE_enq_ok 3 _ 0 0 0 hf]
      show (runE 3 (churn k)).ins ++ [(⟨0, 0, 0⟩ : BuffDesc)] = _
      rw [hins, List.replicate_succ']
      rfl
    have houts1 : e1.outs = List.replicate k default := by
      rw [he1, stepE_enq_ok 3 _ 0 0 0 hf]
      exact houts
    have hout1 : outstanding e1.state = 1 := by
      unfold outstanding
      rw [hw1, hr1, U_val]
      omega
    have hne1 : ring_empty 3 e1.state = false :=
      ring_empty_false_of_ne 3 _ (by omega) (by omega)
    rw [hsplit, stepE_deq_ok 3 e1 hne1]
    refine ⟨hb1, hw1, ?_, hins1, ?_⟩
    · show (e1.state.read_idx + 1) % U = (k + 1) % U
      rw [hr1, U_val]
      omega
    · show e1.outs ++ [e1.state.buffers (e1.state.read_idx % 3)] = _
      rw [houts1, hb1]
      show List.replicate k default ++ [default] = List.replicate (k + 1) default
      rw [List.replicate_succ']

theorem stepE_enq_ok_projs (N : Nat) (e : Exec) (b l c : Nat)
    (hf : ring_full N e.state = false) :
    (stepE N e (Op.enq b l c)).state.write_idx = (e.state.write_idx + 1) % U ∧
    (stepE N e (Op.enq b l c)).state.read_idx = e.state.read_idx ∧
    (stepE N e (Op.enq b l c)).ins = e.ins ++ [⟨b, l, c⟩] ∧
    (stepE N e (Op.enq b l c)).outs = e.outs ∧
    ∀ j, (stepE N e (Op.enq b l c)).state.buffers j
      = if j = e.state.write_idx % N then ⟨b, l, c⟩ else e.state.buffers j := by
  rw [stepE_enq_ok N e b l c hf]
  exact ⟨rfl, rfl, rfl, rfl, fun _ => rfl⟩

theorem stepE_deq_ok_projs (N : Nat) (e : Exec) (he : ring_empty N e.state = false) :
    (stepE N e Op.deq).state.buffers = e.state.buffers ∧
    (stepE N e Op.deq).state.write_idx = e.state.write_idx ∧
    (stepE N e Op.deq).state.read_idx = (e.state.read_idx + 1) % U ∧
    (stepE N e Op.deq).ins = e.ins ∧
    (stepE N e Op.deq).outs = e.outs ++ [e.state.buffers (e.state.read_idx % N)] := by
  rw [stepE_deq_ok N e he]
  exact ⟨rfl, rfl, rfl, rfl, rfl⟩

theorem runE_badOps :
    (runE 3 badOps).ins
      = List.replicate (U - 1) default ++ [⟨1, 10, 100⟩, ⟨2, 20, 200⟩] ∧
    (runE 3 badOps).outs
      = List.replicate (U - 1) default ++ [(⟨2, 20, 200⟩ : BuffDesc)] := by
  obtain ⟨hb, hw, hr, hins, houts⟩ := runE_churn (U - 1)
  have hUm : (U - 1) % U = U - 1 := by
    rw [U_val]
  have hS0out : outstanding (runE 3 (churn (U - 1))).state = 0 := by
    rw [outstanding, hw, hr]
    decide
  have hfA : ring_full 3 (runE 3 (churn (U - 1))).state = false :=
    ring_full_false_of_ne 3 _ (by decide) (by omega) (by omega)
  set e1 := stepE 3 (runE 3 (churn (U - 1))) (Op.enq 1 10 100) with he1
  obtain ⟨pw1, pr1, pi1, po1, pb1⟩ := stepE_enq_ok_projs 3 (runE 3 (churn (U - 1))) 1 10 100 hfA
  have hw1 : e1.state.write_idx = 0 := by
    rw [he1, pw1, hw]
    decide
  have hr1 : e1.state.read_idx = U - 1 := by
    rw [he1, pr1, hr, hUm]
  have hins1 : e1.ins = List.replicate (U - 1) default ++ [(⟨1, 10, 100⟩ : BuffDesc)] := by
    rw [he1, pi1, hins]
  have houts1 : e1.outs = List.replicate (U - 1) default := by
    rw [he1, po1, houts]
  have h1out : outstanding e1.state = 1 := by
    rw [outstanding, hw1, hr1]
    decide
  have hfB : ring_full 3 e1.state = false :=
    ring_full_false_of_ne 3 _ (by decide) (by omega) (by omega)
  set e2 := stepE 3 e1 (Op.enq 2 20 200) with he2
  obtain ⟨qw2, qr2, qi2, qo2, qb2⟩ := stepE_enq_ok_projs 3 e1 2 20 200 hfB
  have hw2 : e2.state.write_idx = 1 := by
    rw [he2, qw2, hw1]
    decide
  have hr2 : e2.state.read_idx = U - 1 := by
    rw [he2, qr2, hr1]
  have hins2 : e2.ins
      = List.replicate (U - 1) default ++ [⟨1, 10, 100⟩, ⟨2, 20, 200⟩] := by
    rw [he2, qi2, hins1, List.append_assoc]
    rfl
  have houts2 : e2.outs = List.replicate (U - 1) default := by
    rw [he2, qo2, houts1]
  have hbufB : e2.state.buffers ((U - 1) % 3) = ⟨2, 20, 200⟩ := by
    rw [he2, qb2 ((U - 1) % 3), hw1]
    rw [if_pos (by decide)]
  have h2out : outstanding e2.state = 2 := by
    rw [outstanding, hw2, hr2]
    decide
  have heB : ring_empty 3 e2.state = false :=
    ring_empty_false_of_ne 3 _ (by omega) (by omega)
  obtain ⟨rb, rw2, rr2, ri2, ro2⟩ := stepE_deq_ok_projs 3 e2 heB
  have hsplit : runE 3 badOps = stepE 3 e2 Op.deq := by
    rw [he2, he1]
    show runE 3 (churn (U - 1) ++ [Op.enq 1 10 100, Op.enq 2 20 200, Op.deq]) = _
    rw [runE_append]
    rfl
  constructor
  · rw [hsplit, ri2]
    exact hins2
  · rw [hsplit, ro2, hr2, hbufB, houts2]

/-- C1 (counterexample): with slot count 3 — permitted by the spec, which
requires only at least 2 and explicitly not necessarily a power of two — the
call sequence badOps (2^32 - 1 balanced enqueue/dequeue pairs followed by two
enqueues and one dequeue) makes that dequeue return the second enqueued
descriptor instead of the first: slot selection (write_idx mod 2^32) mod 3
collides across the 2^32 cursor boundary, the second enqueue overwrites the
still-undelivered first descriptor, and the sequence of dequeued descriptors
is not a prefix of the sequence of enqueued ones, so the FIFO round-trip
property of the claim fails on this sequence. -/
theorem C1_counterexample :
    ¬ ∃ t, (runE 3 badOps).ins = (runE 3 badOps).outs ++ t := by
  obtain ⟨hins, houts⟩ := runE_badOps
  rintro ⟨t, ht⟩
  rw [hins, houts, List.append_assoc] at ht
  have h2 := List.append_cancel_left ht
  have h3 : ([⟨1, 10, 100⟩, ⟨2, 20, 200⟩] : List BuffDesc)
      = ⟨2, 20, 200⟩ :: t := h2
  injection h3 with h31 h32
  exact absurd h31 (by decide)
